import Mathlib

/-
Formal model of the week-planner time-grid engine.

Shallow embedding of the core of src/src/App.tsx: the 7x288 five-minute
time grid, range writes, paint-stroke deduplication, stripe aggregation,
the allocation summary, activity deletion, the pointer reorder engine,
and the JSON import boundary.  A grid cell is an `Option String`
(`none` = free slot); JavaScript truthiness (`!v`, which also treats the
empty string as falsy) is modelled explicitly where the source relies
on it.
-/

/-- Tool mode of a plan: `paint` or `erase` (App.tsx 179). -/
inductive ToolMode where
  | paint
  | erase
  deriving DecidableEq

/-- Activity record (App.tsx 181-186). -/
structure Activity where
  id : String
  name : String
  colour : String
  icon : String
  deriving DecidableEq

/-- The 7x288 grid: one list per day, `none` = free slot (App.tsx 192). -/
abbrev Grid := List (List (Option String))

/-- Plan record (App.tsx 188-195); the plan-manager fields the engine
claims do not touch are omitted. -/
structure Plan where
  id : String
  name : String
  activities : List Activity
  grid : Grid
  selectedActivityId : Option String
  tool : ToolMode
  deriving DecidableEq

/-- Embeds buildEmptyWeek (App.tsx 115-117): 7 columns of 288 free slots. -/
def buildEmptyWeek : Grid :=
  List.replicate 7 (List.replicate 288 (none : Option String))

/-- Embeds clearGridForActivity (App.tsx 161-163): rewrite every cell that
equals the given id (strict equality) to free. -/
def clearGridForActivity (grid : Grid) (activityId : String) : Grid :=
  grid.map fun col => col.map fun cell => if cell = some activityId then none else cell

/-- Clamping performed by reorderByIndex on its target index (App.tsx
169-170): negative indices become 0, indices at or past the end become
length - 1. -/
def clampToIndex (n : Nat) (toIndex : Int) : Int :=
  if (n : Int) ≤ (if toIndex < 0 then 0 else toIndex) then (n : Int) - 1
  else if toIndex < 0 then 0 else toIndex

/-- The splice pair of reorderByIndex (App.tsx 173-176): remove the item at
index f, then re-insert it at index t. -/
def spliceMove (list : List α) (f t : Nat) : List α :=
  match list.get? f with
  | none => list
  | some item => (list.eraseIdx f).insertIdx t item

/-- Embeds reorderByIndex (App.tsx 165-177): an out-of-range fromIndex
returns the list unchanged; toIndex is clamped into [0, length-1]; equal
resolved indices are a no-op; otherwise the element at fromIndex is removed
and re-inserted at the clamped toIndex. -/
def reorderByIndex (list : List α) (fromIndex toIndex : Int) : List α :=
  if fromIndex < 0 ∨ (list.length : Int) ≤ fromIndex then list
  else if fromIndex = clampToIndex list.length toIndex then list
  else spliceMove list fromIndex.toNat (clampToIndex list.length toIndex).toNat

/-- JS Array.findIndex over activity ids: index of the first activity with
the given id, -1 when absent (App.tsx 757, 767). -/
def findIndexById (acts : List Activity) (activityId : String) : Int :=
  match acts.findIdx? (fun a => a.id == activityId) with
  | some i => (i : Int)
  | none => -1

/-- Embeds the reorder release handler onUp (App.tsx 753-776): the last
insertion index (an index into the list with the dragged item removed) is
translated to a target index in the original ordering — the index of the
sibling the insertion point sits before, or length-1 when the insertion
point is past the last remaining item (JS `!beforeId` also sends an empty
string id to that branch) — and reorderByIndex is applied when the
resolved indices differ. -/
def onUpRelease (acts : List Activity) (draggedId : String) (insertIndex : Int) : List Activity :=
  let fromIndex : Int := findIndexById acts draggedId
  let toIndex : Int :=
    if 0 ≤ fromIndex then
      let without := acts.filter (fun a => a.id != draggedId)
      let clamped : Int := max 0 (min (without.length : Int) insertIndex)
      match without.get? clamped.toNat with
      | none => (acts.length : Int) - 1
      | some a => if a.id = "" then (acts.length : Int) - 1 else findIndexById acts a.id
    else insertIndex
  if 0 ≤ fromIndex ∧ 0 ≤ toIndex ∧ fromIndex ≠ toIndex then
    reorderByIndex acts fromIndex toIndex
  else acts

/-- Sample activities for concrete evaluations. -/
def actA : Activity := ⟨"a", "A", "#E11D48", "briefcase"⟩

/-- Second sample activity. -/
def actB : Activity := ⟨"b", "B", "#0EA5E9", "users"⟩

/-- Third sample activity. -/
def actC : Activity := ⟨"c", "C", "#64748B", "bed"⟩

/-- Fourth sample activity. -/
def actD : Activity := ⟨"d", "D", "#22C55E", "laptop"⟩

/-- The 4-item activity list [A,B,C,D] used by the reorder claims. -/
def acts4 : List Activity := [actA, actB, actC, actD]

/-! Supporting permutation lemmas for reorderByIndex. -/

/-- Inserting x at any valid position is a permutation of consing it. -/
theorem perm_insertIdx (x : α) : ∀ (n : Nat) (l : List α), n ≤ l.length →
    (l.insertIdx n x).Perm (x :: l)
  | 0, l, _ => by simp [List.insertIdx_zero]
  | n + 1, [], h => by simp at h
  | n + 1, y :: l, h => by
      rw [List.insertIdx_succ_cons]
      exact ((perm_insertIdx x n l (by simpa using h)).cons y).trans (List.Perm.swap x y l)

/-- A list is a permutation of its i-th element consed onto the list with
the i-th element removed. -/
theorem perm_cons_eraseIdx : ∀ (l : List α) (i : Nat) (h : i < l.length),
    l.Perm (l.get ⟨i, h⟩ :: l.eraseIdx i)
  | x :: l, 0, _ => by simp
  | x :: l, i + 1, h => by
      have ih := perm_cons_eraseIdx l i (by simpa using h)
      simpa using (ih.cons x).trans (List.Perm.swap _ x _)

/-- spliceMove permutes the list when the source index is in range and the
target index fits in the shortened list. -/
theorem spliceMove_perm (l : List α) (f t : Nat) (hf : f < l.length)
    (ht : t + 1 ≤ l.length) : (spliceMove l f t).Perm l := by
  unfold spliceMove
  rw [List.get?_eq_get hf]
  have hlen : (l.eraseIdx f).length + 1 = l.length := List.length_eraseIdx_add_one hf
  exact ((perm_insertIdx _ t _ (by omega)).trans (perm_cons_eraseIdx l f hf).symm)

/-- C10: for every list and every pair of integer indices, reorderByIndex
returns a permutation of the input; an out-of-range fromIndex returns the
list unchanged; the target index is clamped into [0, length-1]; equal
resolved indices return the list unchanged; otherwise the element at
fromIndex is removed and re-inserted at the clamped target index. -/
theorem reorderByIndex_spec (list : List α) (fromIndex toIndex : Int) :
    (reorderByIndex list fromIndex toIndex).Perm list
    ∧ ((fromIndex < 0 ∨ (list.length : Int) ≤ fromIndex) →
        reorderByIndex list fromIndex toIndex = list)
    ∧ (list ≠ [] → 0 ≤ clampToIndex list.length toIndex
        ∧ clampToIndex list.length toIndex < (list.length : Int))
    ∧ (0 ≤ fromIndex → fromIndex < (list.length : Int) →
        (fromIndex = clampToIndex list.length toIndex →
          reorderByIndex list fromIndex toIndex = list)
        ∧ (fromIndex ≠ clampToIndex list.length toIndex →
          reorderByIndex list fromIndex toIndex
            = spliceMove list fromIndex.toNat (clampToIndex list.length toIndex).toNat)) := by
  have hclamp : list ≠ [] → 0 ≤ clampToIndex list.length toIndex
      ∧ clampToIndex list.length toIndex < (list.length : Int) := by
    intro hne
    have hlen : 1 ≤ list.length := List.length_pos.mpr hne
    by_cases h : toIndex < 0
    · simp only [clampToIndex, if_pos h]
      split <;> omega
    · simp only [clampToIndex, if_neg h]
      split <;> omega
  refine ⟨?_, ?_, hclamp, ?_⟩
  · unfold reorderByIndex
    split
    · exact List.Perm.refl _
    · rename_i hin
      push_neg at hin
      split
      · exact List.Perm.refl _
      · have hne : list ≠ [] := by
          intro h
          subst h
          simp at hin
          omega
        have hb := hclamp hne
        exact spliceMove_perm _ _ _ (by omega) (by omega)
  · intro h
    unfold reorderByIndex
    rw [if_pos h]
  · intro h0 hlt
    have hguard : ¬(fromIndex < 0 ∨ (list.length : Int) ≤ fromIndex) := by omega
    constructor
    · intro heq
      unfold reorderByIndex
      rw [if_neg hguard, if_pos heq]
    · intro hne
      unfold reorderByIndex
      rw [if_neg hguard, if_neg hne]

/-- C10 witness: the general reorderByIndex theorem applied at the concrete
list [a,b,c] with fromIndex 0 and (clamped) toIndex 5. -/
theorem reorderByIndex_spec_witness :
    (reorderByIndex ["a", "b", "c"] 0 5).Perm ["a", "b", "c"]
      ∧ reorderByIndex ["a", "b", "c"] 0 5 = spliceMove ["a", "b", "c"] 0 2 := by
  refine ⟨(reorderByIndex_spec ["a", "b", "c"] 0 5).1, ?_⟩
  have h := ((reorderByIndex_spec ["a", "b", "c"] 0 5).2.2.2 (by decide) (by decide)).2 (by decide)
  exact h

/-- C1: the reorder release handler evaluated on the 4-item list [A,B,C,D].
Dropping the item dragged from index 0 with last insertion index 2 (the
point before sibling D in the list without the dragged item) yields
[B,C,D,A], not [B,C,A,D]: the handler resolves the target to D's index in
the original ordering (3), and reorderByIndex re-inserts after removal, so
the item lands after D.  The upward drag of index 2 above index 0 yields
[C,A,B,D] as expected, and a release whose insertion index still names the
start position (here: dragging B with insertion index 1, its start index)
also moves the item, to [A,C,B,D]. -/
theorem c1_onUpRelease_eval :
    onUpRelease acts4 "a" 2 = [actB, actC, actD, actA]
      ∧ onUpRelease acts4 "a" 2 ≠ [actB, actC, actA, actD]
      ∧ onUpRelease acts4 "c" 0 = [actC, actA, actB, actD]
      ∧ onUpRelease acts4 "b" 1 = [actA, actC, actB, actD] := by
  refine ⟨by decide, by decide, by decide, by decide⟩

/-! The time grid: reads, the range write, and its frame property. -/

/-- Cell read as performed throughout the component: `grid?.[day] ?? []`
followed by `col[row] ?? null` — out-of-range indices read as free. -/
def cellAt (grid : Grid) (day row : Nat) : Option String :=
  (grid.getD day []).getD row none

/-- The TimeGrid invariant: exactly 7 day columns of exactly 288 slots. -/
def gridWF (grid : Grid) : Prop :=
  grid.length = 7 ∧ ∀ col ∈ grid, col.length = 288

instance (grid : Grid) : Decidable (gridWF grid) := by
  unfold gridWF
  infer_instance

/-- The write loop of applyRange (App.tsx 443): set every slot in [r, e)
of the column to the value. -/
def writeLoop (col : List (Option String)) (v : Option String) (r e : Nat) :
    List (Option String) :=
  if r < e then writeLoop (col.set r v) v (r + 1) e else col
termination_by e - r

/-- Embeds applyRange (App.tsx 439-446): copy the grid, clamp the end of
the range to 288, and write every slot of [startRow, min 288 (startRow+len))
in the chosen day column to the value. -/
def applyRange (grid : Grid) (dayIndex startRow len : Nat) (v : Option String) : Grid :=
  grid.set dayIndex
    (writeLoop (grid.getD dayIndex []) v startRow (min 288 (startRow + len)))

/-- The write loop preserves the column length. -/
theorem writeLoop_length (v : Option String) (col : List (Option String)) (r e : Nat) :
    (writeLoop col v r e).length = col.length := by
  generalize hfuel : e - r = n
  revert hfuel
  induction n generalizing col r with
  | zero =>
    intro hfuel
    unfold writeLoop
    rw [if_neg (by omega)]
  | succ n ih =>
    intro hfuel
    unfold writeLoop
    rw [if_pos (by omega), ih _ _ (by omega), List.length_set]

/-- Slot-level description of the write loop: slots of [r, e) that exist in
the column read back the written value, every other slot is unchanged. -/
theorem writeLoop_getD (v : Option String) (col : List (Option String)) (r e i : Nat) :
    (writeLoop col v r e).getD i none
      = if r ≤ i ∧ i < e ∧ i < col.length then v else col.getD i none := by
  generalize hfuel : e - r = n
  revert hfuel
  induction n generalizing col r with
  | zero =>
    intro hfuel
    unfold writeLoop
    rw [if_neg (by omega), if_neg (by omega)]
  | succ n ih =>
    intro hfuel
    unfold writeLoop
    rw [if_pos (by omega), ih _ _ (by omega), List.length_set]
    by_cases hir : r = i
    · subst hir
      by_cases hlen : r < col.length
      · rw [if_neg (by omega), if_pos ⟨le_refl r, by omega, hlen⟩]
        rw [List.getD_eq_getElem?_getD, List.getElem?_set, if_pos rfl, if_pos hlen]
        rfl
      · rw [if_neg (by omega), if_neg (by omega)]
        rw [List.getD_eq_getElem?_getD, List.getElem?_set, if_pos rfl, if_neg hlen,
          List.getD_eq_getElem?_getD, List.getElem?_eq_none (by omega)]
    · rw [List.getD_eq_getElem?_getD, List.getElem?_set, if_neg hir,
        ← List.getD_eq_getElem?_getD]
      by_cases hcond : r ≤ i ∧ i < e ∧ i < col.length
      · rw [if_pos ⟨by omega, hcond.2.1, hcond.2.2⟩, if_pos hcond]
      · rw [if_neg (fun h => hcond ⟨by omega, h.2.1, h.2.2⟩), if_neg hcond]

/-- C5: for every well-formed grid, valid day and start slot, length and
value, applyRange sets exactly the slots in
[startSlot, min 288 (startSlot+length)) of that day to the value: reading
any slot of that range afterwards returns the written value, the remaining
slots of the day are unchanged, and every slot of every other day is
unchanged. -/
theorem applyRange_frame (grid : Grid) (day start len : Nat) (v : Option String)
    (hwf : gridWF grid) (hday : day < 7) (hstart : start < 288) :
    (∀ r, start ≤ r → r < min 288 (start + len) →
        cellAt (applyRange grid day start len v) day r = v)
    ∧ (∀ r, r < 288 → ¬(start ≤ r ∧ r < min 288 (start + len)) →
        cellAt (applyRange grid day start len v) day r = cellAt grid day r)
    ∧ (∀ d, d ≠ day →
        ∀ r, cellAt (applyRange grid day start len v) d r = cellAt grid d r) := by
  obtain ⟨hlen7, hcols⟩ := hwf
  have hdaylen : day < grid.length := by omega
  have hcollen : (grid.getD day []).length = 288 := by
    rw [List.getD_eq_getElem grid [] hdaylen]
    exact hcols _ (List.getElem_mem hdaylen)
  have hsame : (applyRange grid day start len v).getD day []
      = writeLoop (grid.getD day []) v start (min 288 (start + len)) := by
    unfold applyRange
    rw [List.getD_eq_getElem?_getD, List.getElem?_set, if_pos rfl, if_pos hdaylen]
    rfl
  refine ⟨?_, ?_, ?_⟩
  · intro r h1 h2
    unfold cellAt
    rw [hsame, writeLoop_getD, if_pos ⟨h1, h2, by omega⟩]
  · intro r _ hout
    unfold cellAt
    rw [hsame, writeLoop_getD, if_neg (fun h => hout ⟨h.1, h.2.1⟩)]
  · intro d hd r
    unfold cellAt
    have hother : (applyRange grid day start len v).getD d [] = grid.getD d [] := by
      unfold applyRange
      rw [List.getD_eq_getElem?_getD, List.getElem?_set, if_neg (fun h => hd h.symm),
        ← List.getD_eq_getElem?_getD]
    rw [hother]

set_option maxRecDepth 4000 in
/-- C5 witness: the frame theorem applied to the empty week at day 1,
start slot 280, length 20 (a range clamped at 288). -/
theorem applyRange_frame_witness :
    gridWF buildEmptyWeek ∧ 1 < 7 ∧ 280 < 288
      ∧ ((∀ r, 280 ≤ r → r < min 288 (280 + 20) →
            cellAt (applyRange buildEmptyWeek 1 280 20 (some "a")) 1 r = some "a")
        ∧ (∀ r, r < 288 → ¬(280 ≤ r ∧ r < min 288 (280 + 20)) →
            cellAt (applyRange buildEmptyWeek 1 280 20 (some "a")) 1 r
              = cellAt buildEmptyWeek 1 r)
        ∧ (∀ d, d ≠ 1 →
            ∀ r, cellAt (applyRange buildEmptyWeek 1 280 20 (some "a")) d r
              = cellAt buildEmptyWeek d r)) :=
  ⟨by decide, by decide, by decide,
    applyRange_frame buildEmptyWeek 1 280 20 (some "a") (by decide) (by decide) (by decide)⟩

/-! Activity deletion and the no-dangling-reference invariant. -/

/-- Embeds deleteActivity (App.tsx 548-558): remove the activity from the
registry, cascade-clear its cells from the grid, and, when the deleted
activity was selected, move the selection to the first remaining activity
(or none). -/
def deleteActivity (p : Plan) (activityId : String) : Plan :=
  let nextActivities := p.activities.filter (fun a => a.id != activityId)
  let nextGrid := clearGridForActivity p.grid activityId
  let nextSelected :=
    if p.selectedActivityId = some activityId then nextActivities.head?.map Activity.id
    else p.selectedActivityId
  { p with
    activities := nextActivities
    grid := nextGrid
    selectedActivityId := nextSelected }

/-- C6: after deleting activity X, no grid cell equals X, X is absent from
the registry, and if X was selected the new selection is an activity still
present (or none); moreover, if the plan had no dangling grid references
before the deletion it has none afterwards. -/
theorem deleteActivity_no_dangling (p : Plan) (activityId : String) :
    (∀ col ∈ (deleteActivity p activityId).grid, ∀ c ∈ col, c ≠ some activityId)
    ∧ (∀ a ∈ (deleteActivity p activityId).activities, a.id ≠ activityId)
    ∧ (p.selectedActivityId = some activityId →
        (deleteActivity p activityId).selectedActivityId = none
        ∨ ∃ a ∈ (deleteActivity p activityId).activities,
            (deleteActivity p activityId).selectedActivityId = some a.id)
    ∧ ((∀ col ∈ p.grid, ∀ c ∈ col,
          c = none ∨ ∃ a ∈ p.activities, some a.id = c) →
        ∀ col ∈ (deleteActivity p activityId).grid, ∀ c ∈ col,
          c = none ∨ ∃ a ∈ (deleteActivity p activityId).activities, some a.id = c) := by
  refine ⟨?_, ?_, ?_, ?_⟩
  · intro col hcol c hc
    simp only [deleteActivity, clearGridForActivity, List.mem_map] at hcol
    obtain ⟨col0, _, rfl⟩ := hcol
    simp only [List.mem_map] at hc
    obtain ⟨c0, _, rfl⟩ := hc
    split
    · simp
    · rename_i h
      exact h
  · intro a ha
    simp only [deleteActivity, List.mem_filter, bne_iff_ne, ne_eq] at ha
    exact ha.2
  · intro hsel
    simp only [deleteActivity, if_pos hsel]
    cases hL : p.activities.filter (fun a => a.id != activityId) with
    | nil => exact Or.inl rfl
    | cons x xs =>
        refine Or.inr ⟨x, ?_, ?_⟩
        · simp [hL]
        · simp [hL]
  · intro hinv col hcol c hc
    simp only [deleteActivity, clearGridForActivity, List.mem_map] at hcol
    obtain ⟨col0, hcol0, rfl⟩ := hcol
    simp only [List.mem_map] at hc
    obtain ⟨c0, hc0, rfl⟩ := hc
    by_cases h0 : c0 = some activityId
    · rw [if_pos h0]
      exact Or.inl rfl
    · rw [if_neg h0]
      rcases hinv col0 hcol0 c0 hc0 with hnone | ⟨a, ha, haeq⟩
      · exact Or.inl hnone
      · refine Or.inr ⟨a, ?_, haeq⟩
        simp only [deleteActivity, List.mem_filter, bne_iff_ne, ne_eq]
        refine ⟨ha, ?_⟩
        intro haid
        exact h0 (by rw [← haeq, haid])

/-- Example plan with two activities, a selection, and a dangling-free
grid, used to instantiate the stateful theorems. -/
def planEx : Plan :=
  { id := "p1", name := "Default", activities := [actA, actB],
    grid := [[some "a", none], [some "b", some "a"], [], [], [], [], []],
    selectedActivityId := some "a", tool := ToolMode.paint }

/-- C6 witness: the deletion theorem applied to the example plan with its
selected activity deleted; both hypotheses are discharged concretely. -/
theorem deleteActivity_no_dangling_witness :
    (planEx.selectedActivityId = some "a"
      ∧ (∀ col ∈ planEx.grid, ∀ c ∈ col,
          c = none ∨ ∃ a ∈ planEx.activities, some a.id = c))
    ∧ ((deleteActivity planEx "a").selectedActivityId = none
        ∨ ∃ a ∈ (deleteActivity planEx "a").activities,
            (deleteActivity planEx "a").selectedActivityId = some a.id)
    ∧ (∀ col ∈ (deleteActivity planEx "a").grid, ∀ c ∈ col,
        c = none ∨ ∃ a ∈ (deleteActivity planEx "a").activities, some a.id = c) :=
  ⟨⟨rfl, by decide⟩,
    (deleteActivity_no_dangling planEx "a").2.2.1 rfl,
    (deleteActivity_no_dangling planEx "a").2.2.2 (by decide)⟩

/-! The paint engine: stroke state and coarse-cell deduplication. -/

/-- Paint-stroke state (App.tsx 280-282): whether the mouse is down, the
stroke's resolved tool, the last painted coarse cell, and the active plan. -/
structure PaintState where
  isMouseDown : Bool
  dragPaintMode : ToolMode
  lastPaint : Option (Nat × Nat)
  plan : Plan
  deriving DecidableEq

/-- The write both paint handlers perform (App.tsx 455-456, 469-470):
applyRange over the coarse block with none in erase mode and the selected
activity id otherwise. -/
def paintWrite (viewStep : Nat) (s : PaintState) (dayIndex startRow : Nat) : PaintState :=
  match s.dragPaintMode with
  | ToolMode.erase =>
      { s with plan :=
        { s.plan with grid := applyRange s.plan.grid dayIndex startRow viewStep none } }
  | ToolMode.paint =>
      { s with plan :=
        { s.plan with grid :=
            applyRange s.plan.grid dayIndex startRow viewStep s.plan.selectedActivityId } }

/-- Embeds onCellPointerEnter (App.tsx 448-457): ignore the event when the
mouse is up; suppress the write when the cell equals the last painted
coarse cell; otherwise record the cell and write the coarse block. -/
def onCellPointerEnter (viewStep : Nat) (s : PaintState) (dayIndex startRow : Nat) :
    PaintState :=
  if s.isMouseDown = false then s
  else if s.lastPaint = some (dayIndex, startRow) then s
  else paintWrite viewStep { s with lastPaint := some (dayIndex, startRow) } dayIndex startRow

/-- Embeds onCellPointerDown (App.tsx 459-471): mark the mouse down, record
the cell, resolve the stroke mode (a secondary-button press forces erase),
and write the coarse block. -/
def onCellPointerDown (viewStep : Nat) (s : PaintState) (dayIndex startRow : Nat)
    (isRightClick : Bool) : PaintState :=
  paintWrite viewStep
    { s with
      isMouseDown := true
      lastPaint := some (dayIndex, startRow)
      dragPaintMode := if isRightClick then ToolMode.erase else s.plan.tool }
    dayIndex startRow

/-- Guard under which onCellPointerEnter reaches its applyRange call. -/
def enterPerformsWrite (s : PaintState) (c : Nat × Nat) : Bool :=
  s.isMouseDown && !(s.lastPaint == some c)

/-- Number of effective writes performed by a sequence of continueStroke
calls starting from a given stroke state. -/
def strokeWrites (viewStep : Nat) : PaintState → List (Nat × Nat) → Nat
  | _, [] => 0
  | s, c :: cs =>
      (if enterPerformsWrite s c then 1 else 0)
        + strokeWrites viewStep (onCellPointerEnter viewStep s c.1 c.2) cs

/-- Collapse consecutive repeats of the same coarse cell. -/
def dedupRuns : List (Nat × Nat) → List (Nat × Nat)
  | [] => []
  | [c] => [c]
  | c :: c2 :: cs => if c = c2 then dedupRuns (c2 :: cs) else c :: dedupRuns (c2 :: cs)

/-- paintWrite only touches the plan's grid. -/
theorem paintWrite_fields (viewStep : Nat) (s : PaintState) (d r : Nat) :
    (paintWrite viewStep s d r).isMouseDown = s.isMouseDown
      ∧ (paintWrite viewStep s d r).lastPaint = s.lastPaint := by
  rcases s with ⟨md, mode, lp, pl⟩
  cases mode <;> exact ⟨rfl, rfl⟩

/-- A continueStroke naming the last painted cell leaves the state unchanged. -/
theorem onCellPointerEnter_same (viewStep : Nat) (s : PaintState) (day row : Nat)
    (h : s.lastPaint = some (day, row)) : onCellPointerEnter viewStep s day row = s := by
  unfold onCellPointerEnter
  split
  · rfl
  · rfl

/-- A continueStroke on a fresh cell with the mouse down keeps the mouse
down and records that cell as last painted. -/
theorem onCellPointerEnter_write_state (viewStep : Nat) (s : PaintState) (day row : Nat)
    (hmd : s.isMouseDown = true) (hne : ¬s.lastPaint = some (day, row)) :
    (onCellPointerEnter viewStep s day row).isMouseDown = true
      ∧ (onCellPointerEnter viewStep s day row).lastPaint = some (day, row) := by
  unfold onCellPointerEnter
  rw [if_neg (by simp [hmd]), if_neg hne]
  refine ⟨?_, ?_⟩
  · rw [(paintWrite_fields viewStep _ day row).1]
    exact hmd
  · rw [(paintWrite_fields viewStep _ day row).2]

/-- After a pointer down the mouse is recorded as down and the pressed cell
as last painted. -/
theorem onCellPointerDown_state (viewStep : Nat) (s : PaintState) (day row : Nat)
    (rc : Bool) :
    (onCellPointerDown viewStep s day row rc).isMouseDown = true
      ∧ (onCellPointerDown viewStep s day row rc).lastPaint = some (day, row) := by
  unfold onCellPointerDown
  refine ⟨?_, ?_⟩
  · rw [(paintWrite_fields viewStep _ day row).1]
  · rw [(paintWrite_fields viewStep _ day row).2]

/-- Membership is preserved by collapsing runs. -/
theorem mem_dedupRuns : ∀ (l : List (Nat × Nat)) (x : Nat × Nat),
    x ∈ dedupRuns l ↔ x ∈ l
  | [], x => by simp [dedupRuns]
  | [c], x => by simp [dedupRuns]
  | c :: c2 :: cs, x => by
      simp only [dedupRuns]
      split
      · rename_i h
        rw [mem_dedupRuns (c2 :: cs) x]
        subst h
        simp [List.mem_cons]
      · simp only [List.mem_cons, mem_dedupRuns (c2 :: cs) x]

/-- The write count of a continue sequence from a mouse-down state whose
last painted cell is c equals the number of runs of (c :: calls) minus 1. -/
theorem strokeWrites_eq_runs (viewStep : Nat) :
    ∀ (cs : List (Nat × Nat)) (s : PaintState) (c : Nat × Nat),
      s.isMouseDown = true → s.lastPaint = some c →
      strokeWrites viewStep s cs + 1 = (dedupRuns (c :: cs)).length := by
  intro cs
  induction cs with
  | nil =>
      intro s c _ _
      simp [strokeWrites, dedupRuns]
  | cons c2 cs ih =>
      intro s c hmd hlp
      by_cases hcc : c = c2
      · have hsame : onCellPointerEnter viewStep s c2.1 c2.2 = s := by
          refine onCellPointerEnter_same viewStep s c2.1 c2.2 ?_
          rw [hlp, hcc]
        have hw : enterPerformsWrite s c2 = false := by
          simp [enterPerformsWrite, hlp, hcc]
        have hsw : strokeWrites viewStep s (c2 :: cs) = strokeWrites viewStep s cs := by
          simp [strokeWrites, hw, hsame]
        have hd : dedupRuns (c :: c2 :: cs) = dedupRuns (c2 :: cs) := by
          simp [dedupRuns, hcc]
        rw [hsw, hd, ih s c2 hmd (by rw [hlp, hcc])]
      · have hne : ¬s.lastPaint = some (c2.1, c2.2) := by
          rw [hlp]
          simpa using hcc
        have hst := onCellPointerEnter_write_state viewStep s c2.1 c2.2 hmd hne
        have hw : enterPerformsWrite s c2 = true := by
          simp [enterPerformsWrite, hmd, hlp]
          exact hcc
        have hrec := ih (onCellPointerEnter viewStep s c2.1 c2.2) c2 hst.1
          (by rw [hst.2])
        have hsw : strokeWrites viewStep s (c2 :: cs)
            = 1 + strokeWrites viewStep (onCellPointerEnter viewStep s c2.1 c2.2) cs := by
          simp [strokeWrites, hw]
        have hd : dedupRuns (c :: c2 :: cs) = c :: dedupRuns (c2 :: cs) := by
          simp [dedupRuns, hcc]
        rw [hsw, hd]
        simp only [List.length_cons]
        omega

/-- When runs are duplicate-free the run count is the count of distinct
cells touched. -/
theorem dedupRuns_length_eq_dedup (l : List (Nat × Nat)) (h : (dedupRuns l).Nodup) :
    (dedupRuns l).length = l.dedup.length := by
  have h1 : (dedupRuns l).toFinset = l.toFinset := by
    ext x
    simp [List.mem_toFinset, mem_dedupRuns]
  have h2 := List.card_toFinset (dedupRuns l)
  have h3 := List.card_toFinset l
  rw [List.Nodup.dedup h] at h2
  rw [h1] at h2
  omega

/-- C7: within a single stroke, a continueStroke naming the same coarse
cell as the immediately preceding call performs no write and leaves the
state unchanged; and for a stroke begun with a pointer down on (day, row)
followed by continue calls that only re-enter cells in consecutive runs
(the run-collapsed call list has no duplicate), the total number of
effective writes (the initial write plus the continue writes) equals the
number of distinct coarse cells touched. -/
theorem stroke_dedup (viewStep : Nat) (s : PaintState) (day row : Nat)
    (s0 : PaintState) (day0 row0 : Nat) (rc : Bool) (cs : List (Nat × Nat)) :
    (s.lastPaint = some (day, row) →
        onCellPointerEnter viewStep s day row = s
          ∧ enterPerformsWrite s (day, row) = false)
    ∧ ((dedupRuns ((day0, row0) :: cs)).Nodup →
        1 + strokeWrites viewStep (onCellPointerDown viewStep s0 day0 row0 rc) cs
          = ((day0, row0) :: cs).dedup.length) := by
  constructor
  · intro h
    refine ⟨onCellPointerEnter_same viewStep s day row h, ?_⟩
    simp [enterPerformsWrite, h]
  · intro hnd
    have hst := onCellPointerDown_state viewStep s0 day0 row0 rc
    have := strokeWrites_eq_runs viewStep cs (onCellPointerDown viewStep s0 day0 row0 rc)
      (day0, row0) hst.1 hst.2
    rw [← dedupRuns_length_eq_dedup _ hnd]
    omega

/-- Initial paint state: mouse up, paint mode, no last painted cell. -/
def paintStateEx : PaintState :=
  { isMouseDown := false, dragPaintMode := ToolMode.paint, lastPaint := none, plan := planEx }

/-- Mid-stroke paint state whose last painted coarse cell is (0,0). -/
def paintStateMid : PaintState :=
  { isMouseDown := true, dragPaintMode := ToolMode.paint, lastPaint := some (0, 0),
    plan := planEx }

/-- C7 witness: the stroke theorem applied to a concrete stroke — a repeat
of the last painted cell is a no-op, and a begin at (0,0) followed by the
continue calls [(0,3),(0,3),(0,6)] performs 3 effective writes, one per
distinct coarse cell. -/
theorem stroke_dedup_witness :
    (onCellPointerEnter 3 paintStateMid 0 0 = paintStateMid
      ∧ enterPerformsWrite paintStateMid (0, 0) = false)
    ∧ 1 + strokeWrites 3 (onCellPointerDown 3 paintStateEx 0 0 false) [(0, 3), (0, 3), (0, 6)]
        = (((0, 0) : Nat × Nat) :: [(0, 3), (0, 3), (0, 6)]).dedup.length :=
  ⟨(stroke_dedup 3 paintStateMid 0 0 paintStateEx 0 0 false [(0, 3), (0, 3), (0, 6)]).1 rfl,
    (stroke_dedup 3 paintStateMid 0 0 paintStateEx 0 0 false [(0, 3), (0, 3), (0, 6)]).2
      (by decide)⟩

/-! Tallying fine slots: the insertion-ordered count map and the free count. -/

/-- JS truthiness of a grid cell (`!v`): free when null or the empty string. -/
def isFreeCell (v : Option String) : Bool :=
  match v with
  | none => true
  | some s => s == ""

/-- Insert-or-increment on the insertion-ordered association list that
models the JS count Map: a new id is appended, an existing id keeps its
position. -/
def bumpCount : List (String × Nat) → String → List (String × Nat)
  | [], aId => [(aId, 1)]
  | (k, n) :: rest, aId =>
      if k = aId then (k, n + 1) :: rest else (k, n) :: bumpCount rest aId

/-- One tally step (App.tsx 417-422, 478-481): a falsy cell counts as free,
otherwise the id's count is bumped. -/
def tallyStep (acc : List (String × Nat) × Nat) (v : Option String) :
    List (String × Nat) × Nat :=
  match v with
  | none => (acc.1, acc.2 + 1)
  | some s => if s = "" then (acc.1, acc.2 + 1) else (bumpCount acc.1 s, acc.2)

/-- Tally a list of cells: per-id counts in first-encounter order plus the
free count. -/
def tally (vs : List (Option String)) : List (String × Nat) × Nat :=
  vs.foldl tallyStep ([], 0)

/-- JS Map.get on the counts list. -/
def getCount : List (String × Nat) → String → Option Nat
  | [], _ => none
  | (k, n) :: rest, aId => if k = aId then some n else getCount rest aId

/-- The truthy (non-free) ids of a cell list, in scan order. -/
def nonFreeIds (vs : List (Option String)) : List String :=
  vs.filterMap fun v =>
    match v with
    | none => none
    | some s => if s = "" then none else some s

/-- First occurrences of each element, in scan order. -/
def firstOccur (l : List String) : List String :=
  l.foldl (fun acc x => if x ∈ acc then acc else acc ++ [x]) []

/-- The tally fold splits into the bump fold over the truthy ids and the
count of falsy cells. -/
theorem tally_foldl_eq (vs : List (Option String)) :
    ∀ acc, vs.foldl tallyStep acc
      = ((nonFreeIds vs).foldl bumpCount acc.1, acc.2 + vs.countP isFreeCell) := by
  induction vs with
  | nil => intro acc; simp [nonFreeIds]
  | cons v vs ih =>
      intro acc
      match v with
      | none =>
          rw [List.foldl_cons, ih (tallyStep acc none)]
          have h1 : nonFreeIds (none :: vs) = nonFreeIds vs := by
            simp [nonFreeIds]
          have h2 : (none :: vs).countP isFreeCell = vs.countP isFreeCell + 1 := by
            simp [List.countP_cons, isFreeCell]
          rw [h1, h2]
          show ((nonFreeIds vs).foldl bumpCount acc.1, acc.2 + 1 + vs.countP isFreeCell) = _
          refine congrArg _ ?_
          omega
      | some s =>
          by_cases hs : s = ""
          · subst hs
            rw [List.foldl_cons, ih (tallyStep acc (some ""))]
            have h1 : nonFreeIds (some "" :: vs) = nonFreeIds vs := by
              simp [nonFreeIds]
            have h2 : (some "" :: vs).countP isFreeCell = vs.countP isFreeCell + 1 := by
              simp [List.countP_cons, isFreeCell]
            rw [h1, h2]
            show ((nonFreeIds vs).foldl bumpCount acc.1, acc.2 + 1 + vs.countP isFreeCell) = _
            refine congrArg _ ?_
            omega
          · rw [List.foldl_cons, ih (tallyStep acc (some s))]
            have h1 : nonFreeIds (some s :: vs) = s :: nonFreeIds vs := by
              simp [nonFreeIds, hs]
            have h2 : (some s :: vs).countP isFreeCell = vs.countP isFreeCell := by
              simp [List.countP_cons, isFreeCell, hs]
            rw [h1, h2]
            simp [tallyStep, hs, List.foldl_cons]

/-- The per-id counts and free count of a tally. -/
theorem tally_eq (vs : List (Option String)) :
    tally vs = ((nonFreeIds vs).foldl bumpCount [], vs.countP isFreeCell) := by
  rw [tally, tally_foldl_eq vs ([], 0)]
  simp

/-- Keys of a count map, in insertion order. -/
def keysOf (m : List (String × Nat)) : List String :=
  m.map Prod.fst

/-- Sum of the counts of a count map. -/
def sumCounts (m : List (String × Nat)) : Nat :=
  (m.map Prod.snd).sum

/-- Lookup after a bump: the bumped id reads one higher, others unchanged. -/
theorem getCount_bumpCount (m : List (String × Nat)) (x k : String) :
    getCount (bumpCount m x) k
      = if x = k then some ((getCount m k).getD 0 + 1) else getCount m k := by
  induction m with
  | nil =>
      by_cases hxk : x = k <;> simp [bumpCount, getCount, hxk]
  | cons e rest ih =>
      obtain ⟨k0, n0⟩ := e
      by_cases h0 : k0 = x
      · subst h0
        by_cases hk : k0 = k
        · subst hk
          simp [bumpCount, getCount]
        · simp [bumpCount, getCount, hk]
      · simp only [bumpCount, if_neg h0]
        by_cases hk : k0 = k
        · subst hk
          have hxk : ¬x = k0 := fun h => h0 h.symm
          simp [getCount, if_neg hxk]
        · simp [getCount, hk, ih]

/-- Keys after a bump: a present id keeps the key list, a new id is
appended. -/
theorem keysOf_bumpCount (m : List (String × Nat)) (x : String) :
    keysOf (bumpCount m x) = if x ∈ keysOf m then keysOf m else keysOf m ++ [x] := by
  induction m with
  | nil => simp [bumpCount, keysOf]
  | cons e rest ih =>
      obtain ⟨k0, n0⟩ := e
      by_cases h0 : k0 = x
      · subst h0
        simp [bumpCount, keysOf]
      · have hx : (x ∈ keysOf ((k0, n0) :: rest)) ↔ x ∈ keysOf rest := by
          simp [keysOf, List.mem_cons]
          intro h
          exact absurd h.symm h0
        have hkb : keysOf (bumpCount ((k0, n0) :: rest) x) = k0 :: keysOf (bumpCount rest x) := by
          simp [bumpCount, if_neg h0, keysOf]
        by_cases hm : x ∈ keysOf rest
        · rw [hkb, ih, if_pos hm, if_pos (hx.mpr hm)]
          simp [keysOf]
        · rw [hkb, ih, if_neg hm, if_neg (fun h => hm (hx.mp h))]
          simp [keysOf]

/-- The key list of a bump fold is the first-occurrence fold of the ids. -/
theorem keysOf_foldl_bumpCount (l : List String) :
    ∀ m, keysOf (l.foldl bumpCount m)
      = l.foldl (fun acc x => if x ∈ acc then acc else acc ++ [x]) (keysOf m) := by
  induction l with
  | nil => intro m; rfl
  | cons x l ih =>
      intro m
      rw [List.foldl_cons, List.foldl_cons, ih (bumpCount m x), keysOf_bumpCount]

/-- Membership in a first-occurrence fold. -/
theorem mem_foldl_occStep (l : List String) :
    ∀ (acc : List String) (x : String),
      x ∈ l.foldl (fun acc y => if y ∈ acc then acc else acc ++ [y]) acc
        ↔ x ∈ acc ∨ x ∈ l := by
  induction l with
  | nil => intro acc x; simp
  | cons y l ih =>
      intro acc x
      rw [List.foldl_cons, ih]
      by_cases hy : y ∈ acc
      · rw [if_pos hy]
        simp only [List.mem_cons]
        constructor
        · rintro (h | h)
          · exact Or.inl h
          · exact Or.inr (Or.inr h)
        · rintro (h | h | h)
          · exact Or.inl h
          · exact Or.inl (h ▸ hy)
          · exact Or.inr h
      · rw [if_neg hy]
        simp only [List.mem_append, List.mem_cons, List.mem_singleton]
        tauto

/-- A first-occurrence fold of a duplicate-free accumulator stays
duplicate-free. -/
theorem nodup_foldl_occStep (l : List String) :
    ∀ acc : List String, acc.Nodup →
      (l.foldl (fun acc y => if y ∈ acc then acc else acc ++ [y]) acc).Nodup := by
  induction l with
  | nil => intro acc h; exact h
  | cons y l ih =>
      intro acc h
      rw [List.foldl_cons]
      by_cases hy : y ∈ acc
      · rw [if_pos hy]
        exact ih acc h
      · rw [if_neg hy]
        refine ih _ ?_
        rw [List.nodup_append]
        exact ⟨h, List.nodup_singleton y, fun a ha hb => hy ((List.mem_singleton.mp hb) ▸ ha)⟩

/-- firstOccur preserves membership. -/
theorem mem_firstOccur (l : List String) (x : String) :
    x ∈ firstOccur l ↔ x ∈ l := by
  rw [firstOccur, mem_foldl_occStep]
  simp

/-- firstOccur has no duplicates. -/
theorem firstOccur_nodup (l : List String) : (firstOccur l).Nodup :=
  nodup_foldl_occStep l [] List.nodup_nil

/-- The keys of a tally are the first occurrences of the truthy ids. -/
theorem keysOf_tally (vs : List (Option String)) :
    keysOf (tally vs).1 = firstOccur (nonFreeIds vs) := by
  rw [tally_eq]
  exact keysOf_foldl_bumpCount (nonFreeIds vs) []

/-- A bump raises the total count by one. -/
theorem sumCounts_bumpCount (m : List (String × Nat)) (x : String) :
    sumCounts (bumpCount m x) = sumCounts m + 1 := by
  induction m with
  | nil => simp [bumpCount, sumCounts]
  | cons e rest ih =>
      obtain ⟨k0, n0⟩ := e
      by_cases h0 : k0 = x
      · subst h0
        simp [bumpCount, sumCounts]
        omega
      · simp [bumpCount, sumCounts, h0] at ih ⊢
        omega

/-- Lookup of a tally is the occurrence count among the truthy ids. -/
theorem getCount_foldl_bumpCount (l : List String) :
    ∀ (m : List (String × Nat)) (k : String),
      (getCount (l.foldl bumpCount m) k).getD 0 = (getCount m k).getD 0 + l.count k := by
  induction l with
  | nil => intro m k; simp
  | cons x l ih =>
      intro m k
      rw [List.foldl_cons, ih (bumpCount m x) k, getCount_bumpCount]
      have hc : (x :: l).count k = l.count k + if x = k then 1 else 0 := by
        rw [List.count_cons]
        by_cases h : x = k <;> simp [h]
      rw [hc]
      by_cases h : x = k
      · rw [if_pos h, if_pos h]
        simp only [Option.getD_some]
        omega
      · rw [if_neg h, if_neg h]
        omega

/-- The total count of a bump fold grows by the length of the id list. -/
theorem sumCounts_foldl_bumpCount (l : List String) :
    ∀ m : List (String × Nat),
      sumCounts (l.foldl bumpCount m) = sumCounts m + l.length := by
  induction l with
  | nil => intro m; simp
  | cons x l ih =>
      intro m
      rw [List.foldl_cons, ih (bumpCount m x), sumCounts_bumpCount]
      simp only [List.length_cons]
      omega

/-- Truthy ids and falsy cells partition the scanned cells. -/
theorem nonFreeIds_length (vs : List (Option String)) :
    (nonFreeIds vs).length + vs.countP isFreeCell = vs.length := by
  induction vs with
  | nil => rfl
  | cons v vs ih =>
      match v with
      | none =>
          simp only [nonFreeIds, List.filterMap_cons, List.countP_cons, List.length_cons] at ih ⊢
          simp [isFreeCell]
          omega
      | some s =>
          by_cases hs : s = ""
          · subst hs
            simp only [nonFreeIds, List.filterMap_cons, List.countP_cons,
              List.length_cons] at ih ⊢
            simp [isFreeCell]
            omega
          · simp only [nonFreeIds, List.filterMap_cons, List.countP_cons,
              List.length_cons] at ih ⊢
            simp [isFreeCell, hs]
            omega

/-! The aggregation engine: stripe classification of a coarse row. -/

/-- A stripe segment (App.tsx 491-501). -/
structure Segment where
  key : String
  colour : String
  n : Nat
  label : String
  deriving DecidableEq

/-- Classification of a coarse row: free, a single activity (the registry
lookup, none when the id is dangling), or a mixed list of proportional
segments.  The CSS gradient and tooltip strings of the source are derived
from the segment list in its order and carry no further data. -/
inductive StripeInfo where
  | free
  | single (activity : Option Activity)
  | mixed (segments : List Segment)
  deriving DecidableEq

/-- JS Map lookup over the registry (App.tsx 404-408): the map is built by
insertion, so a duplicated id keeps the last entry. -/
def activityById (acts : List Activity) (aId : String) : Option Activity :=
  acts.foldl (fun acc a => if a.id = aId then some a else acc) none

/-- The row slice a coarse cell inspects
(`grid?.[dayIndex]?.slice(startRow, startRow + viewStep) ?? []`). -/
def rowSlice (grid : Grid) (viewStep dayIndex startRow : Nat) : List (Option String) :=
  ((grid.getD dayIndex []).drop startRow).take viewStep

/-- An activity segment of a mixed cell (App.tsx 492-499). -/
def activitySegment (acts : List Activity) (e : String × Nat) : Segment :=
  { key := e.1
    colour := ((activityById acts e.1).map Activity.colour).getD "#A3A3A3"
    n := e.2
    label := ((activityById acts e.1).map Activity.name).getD "Unknown" }

/-- The synthetic free segment (App.tsx 501). -/
def freeSegment (free : Nat) : Segment :=
  { key := "__free__", colour := "rgba(255,255,255,0.06)", n := free, label := "Free" }

/-- The unsorted mixed segment list: one segment per distinct activity id
in first-encounter order, plus the free segment when the free count is
positive. -/
def preSegments (acts : List Activity) (grid : Grid) (viewStep dayIndex startRow : Nat) :
    List Segment :=
  (tally (rowSlice grid viewStep dayIndex startRow)).1.map (activitySegment acts)
    ++ (if (tally (rowSlice grid viewStep dayIndex startRow)).2 > 0
        then [freeSegment (tally (rowSlice grid viewStep dayIndex startRow)).2] else [])

/-- Stable insertion into a count-descending segment list: the new segment
goes before the first segment whose count is not larger, so segments of
equal count keep their original relative order — the behaviour of the
stable JS sort `segments.sort((a, b) => b.n - a.n)`. -/
def insertSegDesc (s : Segment) : List Segment → List Segment
  | [] => [s]
  | t :: ts => if s.n < t.n then t :: insertSegDesc s ts else s :: t :: ts

/-- Stable sort of the segment list by count descending. -/
def sortByCountDesc (l : List Segment) : List Segment :=
  l.foldr insertSegDesc []

/-- Embeds getStripeBackground (App.tsx 473-522) up to the CSS and tooltip
string rendering: tally the row slice, then classify as free, single, or
mixed with count-descending stably sorted segments. -/
def getStripeBackground (acts : List Activity) (grid : Grid)
    (viewStep dayIndex startRow : Nat) : StripeInfo :=
  if (tally (rowSlice grid viewStep dayIndex startRow)).1.length = 0 then
    StripeInfo.free
  else if (tally (rowSlice grid viewStep dayIndex startRow)).1.length = 1
      ∧ (tally (rowSlice grid viewStep dayIndex startRow)).2 = 0 then
    StripeInfo.single
      (activityById acts ((tally (rowSlice grid viewStep dayIndex startRow)).1.headD ("", 0)).1)
  else
    StripeInfo.mixed (sortByCountDesc (preSegments acts grid viewStep dayIndex startRow))

/-- Membership in the truthy ids. -/
theorem mem_nonFreeIds (vs : List (Option String)) (x : String) :
    x ∈ nonFreeIds vs ↔ some x ∈ vs ∧ x ≠ "" := by
  simp only [nonFreeIds, List.mem_filterMap]
  constructor
  · rintro ⟨v, hv, hmatch⟩
    match v with
    | none => simp at hmatch
    | some s =>
        by_cases hs : s = ""
        · simp [hs] at hmatch
        · simp only [hs, if_neg, ite_false, Option.some.injEq] at hmatch
          subst hmatch
          exact ⟨hv, hs⟩
  · rintro ⟨hv, hx⟩
    exact ⟨some x, hv, by simp [hx]⟩

/-- Bump fold over a run of one id starting from that id's singleton map. -/
theorem foldl_bumpCount_const (aId : String) :
    ∀ (L : List String) (m : Nat), (∀ x ∈ L, x = aId) →
      L.foldl bumpCount [(aId, m)] = [(aId, m + L.length)] := by
  intro L
  induction L with
  | nil => intro m _; simp
  | cons y L ih =>
      intro m hall
      have hy : y = aId := hall y (List.mem_cons_self y L)
      subst hy
      rw [List.foldl_cons]
      have hb : bumpCount [(y, m)] y = [(y, m + 1)] := by simp [bumpCount]
      rw [hb, ih (m + 1) (fun x hx => hall x (List.mem_cons_of_mem y hx))]
      simp
      omega

/-- Two distinct members force length at least two. -/
theorem two_mem_length_ge_two {l : List String} {s1 s2 : String}
    (h12 : s1 ≠ s2) (h1 : s1 ∈ l) (h2 : s2 ∈ l) : 2 ≤ l.length := by
  match l with
  | [] => simp at h1
  | [x] =>
      simp at h1 h2
      exact absurd (h1.trans h2.symm) h12
  | x :: y :: t => simp

/-- Example grid whose first coarse hour of day 0 is six slots of activity
a followed by six slots of activity b. -/
def mixed66Grid : Grid :=
  (List.replicate 6 (some "a") ++ List.replicate 6 (some "b")
      ++ List.replicate 276 (none : Option String))
    :: List.replicate 6 (List.replicate 288 (none : Option String))

/-- C4: a coarse row whose slots are all free classifies as free; a row
whose slots all hold the same single non-empty activity id with none free
classifies as single carrying that activity's registry entry; a row with a
genuinely non-free slot and either a free slot or two distinct non-free
ids classifies as mixed; and at g = 12 a row of six slots of activity a
and six of activity b is mixed with two equal-width segments. -/
theorem stripe_classification (acts : List Activity) (grid : Grid)
    (viewStep dayIndex startRow : Nat) :
    ((∀ v ∈ rowSlice grid viewStep dayIndex startRow, v = none) →
        getStripeBackground acts grid viewStep dayIndex startRow = StripeInfo.free)
    ∧ (∀ aId, aId ≠ "" →
        (∀ v ∈ rowSlice grid viewStep dayIndex startRow, v = some aId) →
        rowSlice grid viewStep dayIndex startRow ≠ [] →
        getStripeBackground acts grid viewStep dayIndex startRow
          = StripeInfo.single (activityById acts aId))
    ∧ ((∃ s, s ≠ "" ∧ some s ∈ rowSlice grid viewStep dayIndex startRow) →
        ((∃ v ∈ rowSlice grid viewStep dayIndex startRow, isFreeCell v = true)
          ∨ (∃ s1 s2, s1 ≠ s2 ∧ s1 ≠ "" ∧ s2 ≠ ""
              ∧ some s1 ∈ rowSlice grid viewStep dayIndex startRow
              ∧ some s2 ∈ rowSlice grid viewStep dayIndex startRow)) →
        ∃ segs, getStripeBackground acts grid viewStep dayIndex startRow
          = StripeInfo.mixed segs)
    ∧ getStripeBackground [actA, actB] mixed66Grid 12 0 0
        = StripeInfo.mixed
            [activitySegment [actA, actB] ("a", 6), activitySegment [actA, actB] ("b", 6)] := by
  refine ⟨?_, ?_, ?_, ?_⟩
  · intro hall
    have hnf : nonFreeIds (rowSlice grid viewStep dayIndex startRow) = [] := by
      rw [List.eq_nil_iff_forall_not_mem]
      intro x hx
      rcases (mem_nonFreeIds _ x).mp hx with ⟨hv, _⟩
      have := hall _ hv
      simp at this
    have hlen : (tally (rowSlice grid viewStep dayIndex startRow)).1.length = 0 := by
      rw [tally_eq, hnf]
      rfl
    unfold getStripeBackground
    rw [if_pos hlen]
  · intro aId hne hall hvne
    have hmem_eq : ∀ x ∈ nonFreeIds (rowSlice grid viewStep dayIndex startRow), x = aId := by
      intro x hx
      rcases (mem_nonFreeIds _ x).mp hx with ⟨hv, _⟩
      have := hall _ hv
      exact Option.some.inj this.symm |>.symm
    have hfree0 : (rowSlice grid viewStep dayIndex startRow).countP isFreeCell = 0 := by
      rw [List.countP_eq_zero]
      intro v hv
      rw [hall v hv]
      simp [isFreeCell, hne]
    have hlen_nf : (nonFreeIds (rowSlice grid viewStep dayIndex startRow)).length
        = (rowSlice grid viewStep dayIndex startRow).length := by
      have := nonFreeIds_length (rowSlice grid viewStep dayIndex startRow)
      omega
    have hpos : 1 ≤ (rowSlice grid viewStep dayIndex startRow).length :=
      List.length_pos.mpr hvne
    obtain ⟨ys, hnf, hys⟩ : ∃ ys,
        nonFreeIds (rowSlice grid viewStep dayIndex startRow) = aId :: ys
          ∧ ∀ x ∈ ys, x = aId := by
      cases hnfc : nonFreeIds (rowSlice grid viewStep dayIndex startRow) with
      | nil =>
          rw [hnfc] at hlen_nf
          simp at hlen_nf
          omega
      | cons y ys =>
          have hy : y = aId := hmem_eq y (by rw [hnfc]; exact List.mem_cons_self y ys)
          subst hy
          exact ⟨ys, rfl, fun x hx => hmem_eq x (by rw [hnfc]; exact List.mem_cons_of_mem y hx)⟩
    have hcounts : (tally (rowSlice grid viewStep dayIndex startRow)).1
        = [(aId, 1 + ys.length)] := by
      rw [tally_eq, hnf, List.foldl_cons]
      show ys.foldl bumpCount [(aId, 1)] = _
      rw [foldl_bumpCount_const aId ys 1 hys]
    have hfree : (tally (rowSlice grid viewStep dayIndex startRow)).2 = 0 := by
      rw [tally_eq]
      exact hfree0
    unfold getStripeBackground
    rw [if_neg (by rw [hcounts]; simp), if_pos ⟨by rw [hcounts]; rfl, hfree⟩, hcounts]
    rfl
  · rintro ⟨s, hs, hsv⟩ hmix
    have hkey : s ∈ keysOf (tally (rowSlice grid viewStep dayIndex startRow)).1 := by
      rw [keysOf_tally, mem_firstOccur, mem_nonFreeIds]
      exact ⟨hsv, hs⟩
    have hlen : ¬(tally (rowSlice grid viewStep dayIndex startRow)).1.length = 0 := by
      intro h0
      rw [List.length_eq_zero] at h0
      rw [h0] at hkey
      simp [keysOf] at hkey
    have hcond : ¬((tally (rowSlice grid viewStep dayIndex startRow)).1.length = 1
        ∧ (tally (rowSlice grid viewStep dayIndex startRow)).2 = 0) := by
      rintro ⟨h1, h2⟩
      rcases hmix with ⟨v, hv, hfree⟩ | ⟨s1, s2, h12, h1e, h2e, hm1, hm2⟩
      · have hpos : 0 < (rowSlice grid viewStep dayIndex startRow).countP isFreeCell :=
          List.countP_pos_iff.mpr ⟨v, hv, hfree⟩
        rw [tally_eq] at h2
        dsimp only at h2
        omega
      · have hk1 : s1 ∈ keysOf (tally (rowSlice grid viewStep dayIndex startRow)).1 := by
          rw [keysOf_tally, mem_firstOccur, mem_nonFreeIds]
          exact ⟨hm1, h1e⟩
        have hk2 : s2 ∈ keysOf (tally (rowSlice grid viewStep dayIndex startRow)).1 := by
          rw [keysOf_tally, mem_firstOccur, mem_nonFreeIds]
          exact ⟨hm2, h2e⟩
        have hklen : (keysOf (tally (rowSlice grid viewStep dayIndex startRow)).1).length
            = 1 := by
          simp [keysOf, h1]
        have := two_mem_length_ge_two h12 hk1 hk2
        omega
    unfold getStripeBackground
    rw [if_neg hlen, if_neg hcond]
    exact ⟨_, rfl⟩
  · decide

/-- Grid with one coarse hour of day 0 holding twelve slots of the empty
string id (a truthy-falsy JS edge: `!""` is true, so they tally as free). -/
def blankRowGrid : Grid :=
  (List.replicate 12 (some "") ++ List.replicate 276 (none : Option String))
    :: List.replicate 6 (List.replicate 288 (none : Option String))

/-- Registry entry whose id is the empty string. -/
def blankAct : Activity := ⟨"", "Blank", "#111111", "calendar"⟩

/-- C4 counterexample: a coarse row whose twelve slots all hold the same
single activity id, the empty string, with none free (no null cell) is
classified free, not single, because the tally treats the falsy id "" as
a free cell. -/
theorem stripe_empty_id_counterexample :
    (∀ v ∈ rowSlice blankRowGrid 12 0 0, v = some "")
    ∧ rowSlice blankRowGrid 12 0 0 ≠ []
    ∧ getStripeBackground [blankAct] blankRowGrid 12 0 0 = StripeInfo.free
    ∧ getStripeBackground [blankAct] blankRowGrid 12 0 0
        ≠ StripeInfo.single (activityById [blankAct] "") := by
  refine ⟨by decide, by decide, by decide, by decide⟩

/-- Grid with one coarse hour of day 0 holding twelve slots of activity a. -/
def single12Grid : Grid :=
  (List.replicate 12 (some "a") ++ List.replicate 276 (none : Option String))
    :: List.replicate 6 (List.replicate 288 (none : Option String))

/-- C4 witness: the classification theorem applied to an all-free row, an
all-a row and the 6/6 mixed row, with every hypothesis discharged. -/
theorem stripe_classification_witness :
    getStripeBackground [actA, actB] buildEmptyWeek 12 0 0 = StripeInfo.free
    ∧ getStripeBackground [actA, actB] single12Grid 12 0 0
        = StripeInfo.single (activityById [actA, actB] "a")
    ∧ ∃ segs, getStripeBackground [actA, actB] mixed66Grid 12 0 0
        = StripeInfo.mixed segs :=
  ⟨(stripe_classification [actA, actB] buildEmptyWeek 12 0 0).1 (by decide),
    (stripe_classification [actA, actB] single12Grid 12 0 0).2.1 "a" (by decide)
      (by decide) (by decide),
    (stripe_classification [actA, actB] mixed66Grid 12 0 0).2.2.1
      ⟨"a", by decide, by decide⟩
      (Or.inr ⟨"a", "b", by decide, by decide, by decide, by decide, by decide⟩)⟩

/-! Order of mixed segments: count-descending, stable. -/

/-- Membership in a stable insertion. -/
theorem mem_insertSegDesc (s : Segment) : ∀ (l : List Segment) (y : Segment),
    y ∈ insertSegDesc s l ↔ y = s ∨ y ∈ l := by
  intro l
  induction l with
  | nil => intro y; simp [insertSegDesc]
  | cons t ts ih =>
      intro y
      by_cases hlt : s.n < t.n
      · simp only [insertSegDesc, if_pos hlt, List.mem_cons, ih]
        tauto
      · simp only [insertSegDesc, if_neg hlt, List.mem_cons]

/-- Stable insertion preserves count-descending order. -/
theorem insertSegDesc_sorted (s : Segment) (l : List Segment)
    (h : l.Pairwise (fun a b => b.n ≤ a.n)) :
    (insertSegDesc s l).Pairwise (fun a b => b.n ≤ a.n) := by
  induction l with
  | nil => simp [insertSegDesc]
  | cons t ts ih =>
      rcases List.pairwise_cons.mp h with ⟨ht, hts⟩
      by_cases hlt : s.n < t.n
      · simp only [insertSegDesc, if_pos hlt]
        rw [List.pairwise_cons]
        refine ⟨?_, ih hts⟩
        intro b hb
        rcases (mem_insertSegDesc s ts b).mp hb with rfl | hb2
        · omega
        · exact ht b hb2
      · simp only [insertSegDesc, if_neg hlt]
        rw [List.pairwise_cons]
        refine ⟨?_, h⟩
        intro b hb
        rcases List.mem_cons.mp hb with rfl | hb2
        · omega
        · have := ht b hb2
          omega

/-- The stable sort produces a count-descending list. -/
theorem sortByCountDesc_sorted (l : List Segment) :
    (sortByCountDesc l).Pairwise (fun a b => b.n ≤ a.n) := by
  induction l with
  | nil => simp [sortByCountDesc]
  | cons x xs ih => exact insertSegDesc_sorted x _ ih

/-- Stable insertion keeps each equal-count class in order: the inserted
segment lands before every segment of its own count. -/
theorem filter_insertSegDesc (s : Segment) (k : Nat) : ∀ l : List Segment,
    (insertSegDesc s l).filter (fun t => t.n == k)
      = if s.n = k then s :: l.filter (fun t => t.n == k)
        else l.filter (fun t => t.n == k) := by
  intro l
  induction l with
  | nil =>
      by_cases hs : s.n = k <;> simp [insertSegDesc, hs]
  | cons t ts ih =>
      by_cases hlt : s.n < t.n
      · simp only [insertSegDesc, if_pos hlt]
        by_cases htk : t.n = k
        · have hsk : ¬s.n = k := by omega
          simp [List.filter_cons, htk, hsk, ih]
        · simp [List.filter_cons, htk, ih]
      · simp only [insertSegDesc, if_neg hlt]
        by_cases hsk : s.n = k <;> simp [List.filter_cons, hsk]

/-- The stable sort preserves each equal-count class of the input,
in order. -/
theorem filter_sortByCountDesc (l : List Segment) (k : Nat) :
    (sortByCountDesc l).filter (fun t => t.n == k)
      = l.filter (fun t => t.n == k) := by
  induction l with
  | nil => rfl
  | cons x xs ih =>
      show (insertSegDesc x (sortByCountDesc xs)).filter _ = _
      rw [filter_insertSegDesc x k (sortByCountDesc xs)]
      by_cases hx : x.n = k <;> simp [List.filter_cons, hx, ih]

/-- The keys of the unsorted segment list: the first occurrences of the
truthy ids in slot-scan order, then the free key when free slots exist. -/
theorem preSegments_keys (acts : List Activity) (grid : Grid)
    (viewStep dayIndex startRow : Nat) :
    (preSegments acts grid viewStep dayIndex startRow).map Segment.key
      = firstOccur (nonFreeIds (rowSlice grid viewStep dayIndex startRow))
        ++ (if (tally (rowSlice grid viewStep dayIndex startRow)).2 > 0
            then ["__free__"] else []) := by
  unfold preSegments
  rw [List.map_append]
  congr 1
  · rw [← keysOf_tally]
    rw [List.map_map]
    exact List.map_congr_left fun e _ => rfl
  · split <;> rfl

/-- C3 (amended): a mixed classification's segment list is ordered by
count descending; each class of equal-count segments appears exactly as in
the unsorted segment list, i.e. activity segments in first-encounter
order of the slot scan with the free segment appended after all of them;
and the unsorted list's keys are precisely the first occurrences of the
truthy ids followed, when free slots exist, by the free key. -/
theorem stripe_mixed_order (acts : List Activity) (grid : Grid)
    (viewStep dayIndex startRow : Nat) (segs : List Segment)
    (heq : getStripeBackground acts grid viewStep dayIndex startRow
      = StripeInfo.mixed segs) :
    segs.Pairwise (fun a b => b.n ≤ a.n)
    ∧ (∀ k, segs.filter (fun t => t.n == k)
        = (preSegments acts grid viewStep dayIndex startRow).filter (fun t => t.n == k))
    ∧ (preSegments acts grid viewStep dayIndex startRow).map Segment.key
        = firstOccur (nonFreeIds (rowSlice grid viewStep dayIndex startRow))
          ++ (if (tally (rowSlice grid viewStep dayIndex startRow)).2 > 0
              then ["__free__"] else []) := by
  have hsegs : segs = sortByCountDesc (preSegments acts grid viewStep dayIndex startRow) := by
    unfold getStripeBackground at heq
    split at heq
    · simp at heq
    · split at heq
      · simp at heq
      · injection heq with h
        exact h.symm
  subst hsegs
  exact ⟨sortByCountDesc_sorted _, fun k => filter_sortByCountDesc _ k,
    preSegments_keys acts grid viewStep dayIndex startRow⟩

/-- C3 witness: the order theorem applied to the concrete 6/6 mixed row,
with the classification hypothesis discharged by evaluation. -/
theorem stripe_mixed_order_witness :
    ([activitySegment [actA, actB] ("a", 6),
        activitySegment [actA, actB] ("b", 6)] : List Segment).Pairwise
          (fun a b => b.n ≤ a.n)
    ∧ (∀ k, ([activitySegment [actA, actB] ("a", 6),
        activitySegment [actA, actB] ("b", 6)] : List Segment).filter (fun t => t.n == k)
          = (preSegments [actA, actB] mixed66Grid 12 0 0).filter (fun t => t.n == k))
    ∧ (preSegments [actA, actB] mixed66Grid 12 0 0).map Segment.key
        = firstOccur (nonFreeIds (rowSlice mixed66Grid 12 0 0))
          ++ (if (tally (rowSlice mixed66Grid 12 0 0)).2 > 0 then ["__free__"] else []) :=
  stripe_mixed_order [actA, actB] mixed66Grid 12 0 0
    [activitySegment [actA, actB] ("a", 6), activitySegment [actA, actB] ("b", 6)]
    (by decide)

/-- Grid with one coarse hour of day 0 holding six free slots and then six
slots of activity a: the free run is encountered first in the slot scan. -/
def freeTieGrid : Grid :=
  (List.replicate 6 (none : Option String) ++ List.replicate 6 (some "a")
      ++ List.replicate 276 (none : Option String))
    :: List.replicate 6 (List.replicate 288 (none : Option String))

/-- C3 counterexample: in the 6-free-then-6-a row the free slots are
encountered before activity a and the counts tie at 6, yet the mixed
segment list places the a segment first and the free segment last — the
free segment does not take part in first-encounter tie ordering; it is
appended after all activity segments. -/
theorem stripe_free_tie_counterexample :
    rowSlice freeTieGrid 12 0 0
        = List.replicate 6 (none : Option String) ++ List.replicate 6 (some "a")
    ∧ getStripeBackground [actA] freeTieGrid 12 0 0
        = StripeInfo.mixed [activitySegment [actA] ("a", 6), freeSegment 6]
    ∧ getStripeBackground [actA] freeTieGrid 12 0 0
        ≠ StripeInfo.mixed [freeSegment 6, activitySegment [actA] ("a", 6)] := by
  refine ⟨by decide, by decide, by decide⟩

/-! The allocation summary. -/

/-- Result of the allocation summary (App.tsx 432-436). -/
structure AllocationSummary where
  minutesById : List (String × Nat)
  freeMinutes : Nat
  totalMinutes : Nat
  deriving DecidableEq

/-- The cells of the full 7x288 scan, in the iteration order of
allocationSummary (App.tsx 414-424). -/
def gridCells (grid : Grid) : List (Option String) :=
  (List.range 7).flatMap fun day => (List.range 288).map fun row => cellAt grid day row

/-- JS Map.set on an association list: update the existing entry in place
or append a new one. -/
def setAssoc : List (String × Nat) → String → Nat → List (String × Nat)
  | [], k, v => [(k, v)]
  | (k0, v0) :: rest, k, v =>
      if k0 = k then (k, v) :: rest else (k0, v0) :: setAssoc rest k v

/-- Embeds allocationSummary (App.tsx 410-437): tally the 7x288 scan (a
falsy cell counts as free), then report minutes per registry activity
(count*5, zero when absent from the grid), free minutes and the constant
week total. -/
def allocationSummary (acts : List Activity) (grid : Grid) : AllocationSummary :=
  { minutesById :=
      acts.foldl
        (fun m a => setAssoc m a.id ((getCount (tally (gridCells grid)).1 a.id).getD 0 * 5)) []
    freeMinutes := (tally (gridCells grid)).2 * 5
    totalMinutes := 7 * 288 * 5 }

/-- Map.set of a key-determined value over a map of key-determined values. -/
theorem setAssoc_map (f : String → Nat) (k : String) : ∀ L : List String,
    setAssoc (L.map fun aId => (aId, f aId)) k (f k)
      = (if k ∈ L then L else L ++ [k]).map fun aId => (aId, f aId) := by
  intro L
  induction L with
  | nil => simp [setAssoc]
  | cons x L ih =>
      by_cases hx : x = k
      · subst hx
        simp [setAssoc, List.mem_cons]
      · simp only [List.map_cons, setAssoc, if_neg hx, ih]
        by_cases hk : k ∈ L
        · rw [if_pos hk, if_pos (List.mem_cons_of_mem x hk)]
          rfl
        · rw [if_neg hk, if_neg (by
            intro hmem
            rcases List.mem_cons.mp hmem with h | h
            · exact hx h.symm
            · exact hk h)]
          rfl

/-- The minutesById fold produces one key-determined entry per first
occurrence of a registry id. -/
theorem foldl_setAssoc (f : String → Nat) (acts : List Activity) :
    ∀ L : List String,
      acts.foldl (fun m a => setAssoc m a.id (f a.id)) (L.map fun aId => (aId, f aId))
        = ((acts.map Activity.id).foldl
            (fun acc x => if x ∈ acc then acc else acc ++ [x]) L).map
              fun aId => (aId, f aId) := by
  induction acts with
  | nil => intro L; rfl
  | cons a acts ih =>
      intro L
      rw [List.foldl_cons, setAssoc_map f a.id L, List.map_cons, List.foldl_cons]
      exact ih _

/-- Pointwise sum of two mapped functions. -/
theorem sum_map_add (f g : String → Nat) : ∀ S : List String,
    (S.map fun s => f s + g s).sum = (S.map f).sum + (S.map g).sum := by
  intro S
  induction S with
  | nil => rfl
  | cons x S ih =>
      simp only [List.map_cons, List.sum_cons, ih]
      omega

/-- Sum of a factored constant. -/
theorem sum_map_mul_right (g : String → Nat) (c : Nat) : ∀ S : List String,
    (S.map fun s => g s * c).sum = (S.map g).sum * c := by
  intro S
  induction S with
  | nil => simp
  | cons x S ih =>
      simp only [List.map_cons, List.sum_cons, ih]
      ring

/-- An indicator summed over a duplicate-free list containing its point
is one. -/
theorem sum_ite_single (y : String) : ∀ S : List String, S.Nodup → y ∈ S →
    (S.map fun s => if y = s then 1 else 0).sum = 1 := by
  intro S
  induction S with
  | nil => intro _ h; simp at h
  | cons x S ih =>
      intro hnd hy
      rcases List.nodup_cons.mp hnd with ⟨hx, hndS⟩
      rcases List.mem_cons.mp hy with rfl | hyS
      · simp only [List.map_cons, List.sum_cons, if_pos rfl]
        have hz : ∀ s ∈ S, (if y = s then 1 else 0) = 0 := by
          intro s hs
          rw [if_neg (fun h => hx (by rw [h]; exact hs))]
        have h0 : (S.map fun s => if y = s then 1 else 0).sum = 0 := by
          rw [List.map_congr_left hz]
          simp
        rw [h0]
        simp
      · have hxy : ¬y = x := fun h => hx (by rw [← h]; exact hyS)
        simp only [List.map_cons, List.sum_cons, if_neg hxy]
        rw [ih hndS hyS]

/-- Summing the occurrence counts of a covering duplicate-free key list
recovers the length. -/
theorem sum_count_eq_length (L : List String) :
    ∀ S : List String, S.Nodup → (∀ x ∈ L, x ∈ S) →
      (S.map fun s => L.count s).sum = L.length := by
  induction L with
  | nil =>
      intro S _ _
      have hz : ∀ s ∈ S, ([] : List String).count s = 0 := by
        intro s _
        simp
      rw [List.map_congr_left hz]
      simp
  | cons y L ih =>
      intro S hnd hsub
      have hpt : ∀ s ∈ S, (y :: L).count s = L.count s + if y = s then 1 else 0 := by
        intro s _
        by_cases h : y = s <;> simp [List.count_cons, h]
      rw [List.map_congr_left hpt, sum_map_add,
        ih S hnd (fun x hx => hsub x (List.mem_cons_of_mem y hx)),
        sum_ite_single y S hnd (hsub y (List.mem_cons_self y L))]
      simp

/-- C2 (amended): whenever every cell of the 7x288 scan is free, the falsy
empty-string id, or an id present in the registry (no dangling reference),
the allocation summary's per-activity minutes plus its free minutes sum to
exactly 10080. -/
theorem allocationSummary_total (acts : List Activity) (grid : Grid)
    (h : ∀ v ∈ gridCells grid,
      v = none ∨ v = some "" ∨ ∃ a ∈ acts, v = some a.id) :
    ((allocationSummary acts grid).minutesById.map Prod.snd).sum
      + (allocationSummary acts grid).freeMinutes = 10080 := by
  have hmin : (allocationSummary acts grid).minutesById
      = (firstOccur (acts.map Activity.id)).map
          fun aId => (aId, (getCount (tally (gridCells grid)).1 aId).getD 0 * 5) := by
    exact foldl_setAssoc
      (fun aId => (getCount (tally (gridCells grid)).1 aId).getD 0 * 5) acts []
  have hcount : ∀ aId, (getCount (tally (gridCells grid)).1 aId).getD 0
      = (nonFreeIds (gridCells grid)).count aId := by
    intro aId
    rw [tally_eq, getCount_foldl_bumpCount]
    simp [getCount]
  have hsub : ∀ x ∈ nonFreeIds (gridCells grid), x ∈ firstOccur (acts.map Activity.id) := by
    intro x hx
    rcases (mem_nonFreeIds _ x).mp hx with ⟨hv, hne⟩
    rw [mem_firstOccur]
    rcases h _ hv with h1 | h1 | ⟨a, ha, h1⟩
    · simp at h1
    · simp at h1
      exact absurd h1 hne
    · simp at h1
      rw [h1]
      exact List.mem_map_of_mem Activity.id ha
  have hsum : ((allocationSummary acts grid).minutesById.map Prod.snd).sum
      = (nonFreeIds (gridCells grid)).length * 5 := by
    rw [hmin, List.map_map]
    have hfun : (firstOccur (acts.map Activity.id)).map
        (Prod.snd ∘ fun aId => (aId, (getCount (tally (gridCells grid)).1 aId).getD 0 * 5))
          = (firstOccur (acts.map Activity.id)).map
              fun aId => (nonFreeIds (gridCells grid)).count aId * 5 := by
      refine List.map_congr_left fun aId _ => ?_
      dsimp
      rw [hcount]
    rw [hfun, sum_map_mul_right,
      sum_count_eq_length (nonFreeIds (gridCells grid)) (firstOccur (acts.map Activity.id))
        (firstOccur_nodup _) hsub]
  have hfree : (allocationSummary acts grid).freeMinutes
      = (gridCells grid).countP isFreeCell * 5 := by
    show (tally (gridCells grid)).2 * 5 = _
    rw [tally_eq]
  have hcells : (gridCells grid).length = 2016 := by
    rw [gridCells, List.length_flatMap]
    rw [show List.map
        (List.length ∘ fun day => List.map (fun row => cellAt grid day row) (List.range 288))
        (List.range 7) = List.map (fun _ => 288) (List.range 7) from
      List.map_congr_left fun d _ => by simp]
    rfl
  have hpart := nonFreeIds_length (gridCells grid)
  rw [hsum, hfree]
  omega


/-- Every value of the 7x288 scan is the free default or an element of
some grid column. -/
theorem gridCells_forall (grid : Grid) (P : Option String → Prop)
    (hnone : P none) (hcol : ∀ col ∈ grid, ∀ c ∈ col, P c) :
    ∀ v ∈ gridCells grid, P v := by
  intro v hv
  rw [gridCells, List.mem_flatMap] at hv
  obtain ⟨d, _, hv⟩ := hv
  rw [List.mem_map] at hv
  obtain ⟨r, _, rfl⟩ := hv
  unfold cellAt
  rcases hcase : (grid.getD d [])[r]? with _ | c
  · rw [List.getD_eq_getElem?_getD, hcase]
    exact hnone
  · rw [List.getD_eq_getElem?_getD, hcase]
    have hc : c ∈ grid.getD d [] := by
      obtain ⟨hlt, rfl⟩ := List.getElem?_eq_some.mp hcase
      exact List.getElem_mem hlt
    rcases hdcase : grid[d]? with _ | col
    · rw [List.getD_eq_getElem?_getD, hdcase] at hc
      simp at hc
    · rw [List.getD_eq_getElem?_getD, hdcase] at hc
      have hcolmem : col ∈ grid := by
        obtain ⟨hlt, rfl⟩ := List.getElem?_eq_some.mp hdcase
        exact List.getElem_mem hlt
      exact hcol col hcolmem c hc

set_option maxRecDepth 4000 in
/-- C2 witness: the total theorem applied to a registry of one activity
and a grid with twelve cells of that activity, the no-dangling-reference
hypothesis discharged concretely. -/
theorem allocationSummary_total_witness :
    (∀ v ∈ gridCells single12Grid,
      v = none ∨ v = some "" ∨ ∃ a ∈ [actA], v = some a.id)
    ∧ ((allocationSummary [actA] single12Grid).minutesById.map Prod.snd).sum
        + (allocationSummary [actA] single12Grid).freeMinutes = 10080 := by
  have hhyp : ∀ v ∈ gridCells single12Grid,
      v = none ∨ v = some "" ∨ ∃ a ∈ [actA], v = some a.id := by
    refine gridCells_forall single12Grid _ (Or.inl rfl) ?_
    decide
  exact ⟨hhyp, allocationSummary_total [actA] single12Grid hhyp⟩

/-- Grid whose only occupied cell holds an id absent from every registry
used with it. -/
def ghostGrid : Grid :=
  (some "ghost" :: List.replicate 287 (none : Option String))
    :: List.replicate 6 (List.replicate 288 (none : Option String))

/-- Reading a column back by index over its whole range recovers it. -/
theorem map_range_getD (col : List (Option String)) (n : Nat) (h : col.length = n) :
    (List.range n).map (fun r => col.getD r none) = col := by
  subst h
  induction col with
  | nil => rfl
  | cons c cs ih =>
      rw [List.length_cons, List.range_succ_eq_map, List.map_cons, List.map_map]
      show c :: (List.range cs.length).map
        ((fun r => (c :: cs).getD r none) ∘ Nat.succ) = c :: cs
      have hmc : List.map ((fun r => (c :: cs).getD r none) ∘ Nat.succ)
          (List.range cs.length) = List.map (fun r => cs.getD r none)
            (List.range cs.length) :=
        List.map_congr_left fun r _ => rfl
      rw [hmc, ih]

/-- A run of free slots has no truthy ids. -/
theorem nonFreeIds_replicate_none (n : Nat) :
    nonFreeIds (List.replicate n (none : Option String)) = [] := by
  induction n with
  | zero => rfl
  | succ n ih =>
      rw [List.replicate_succ]
      rw [show nonFreeIds (none :: List.replicate n none)
        = nonFreeIds (List.replicate n none) from by simp [nonFreeIds]]
      exact ih

/-- A run of free slots counts fully as free. -/
theorem countP_isFreeCell_replicate_none (n : Nat) :
    (List.replicate n (none : Option String)).countP isFreeCell = n := by
  induction n with
  | zero => rfl
  | succ n ih =>
      rw [List.replicate_succ, List.countP_cons, ih]
      simp [isFreeCell]

/-- A truthy head id is kept by the id scan. -/
theorem nonFreeIds_cons_some (s : String) (hs : ¬s = "") (vs : List (Option String)) :
    nonFreeIds (some s :: vs) = s :: nonFreeIds vs := by
  simp [nonFreeIds, hs]

/-- The full scan of the ghost grid: the ghost cell then 2015 free cells. -/
theorem gridCells_ghost :
    gridCells ghostGrid = some "ghost" :: List.replicate 2015 (none : Option String) := by
  have h0 : (List.range 288).map (fun r => cellAt ghostGrid 0 r)
      = some "ghost" :: List.replicate 287 none :=
    map_range_getD (some "ghost" :: List.replicate 287 none) 288
      (by rw [List.length_cons, List.length_replicate])
  have h1 : (List.range 288).map (fun r => cellAt ghostGrid 1 r)
      = List.replicate 288 none :=
    map_range_getD (List.replicate 288 none) 288 (by rw [List.length_replicate])
  have h2 : (List.range 288).map (fun r => cellAt ghostGrid 2 r)
      = List.replicate 288 none :=
    map_range_getD (List.replicate 288 none) 288 (by rw [List.length_replicate])
  have h3 : (List.range 288).map (fun r => cellAt ghostGrid 3 r)
      = List.replicate 288 none :=
    map_range_getD (List.replicate 288 none) 288 (by rw [List.length_replicate])
  have h4 : (List.range 288).map (fun r => cellAt ghostGrid 4 r)
      = List.replicate 288 none :=
    map_range_getD (List.replicate 288 none) 288 (by rw [List.length_replicate])
  have h5 : (List.range 288).map (fun r => cellAt ghostGrid 5 r)
      = List.replicate 288 none :=
    map_range_getD (List.replicate 288 none) 288 (by rw [List.length_replicate])
  have h6 : (List.range 288).map (fun r => cellAt ghostGrid 6 r)
      = List.replicate 288 none :=
    map_range_getD (List.replicate 288 none) 288 (by rw [List.length_replicate])
  show (List.range 7).flatMap
      (fun day => (List.range 288).map fun row => cellAt ghostGrid day row) = _
  rw [show List.range 7 = [0, 1, 2, 3, 4, 5, 6] from rfl]
  simp only [List.flatMap_cons, List.flatMap_nil, List.append_nil]
  rw [h0, h1, h2, h3, h4, h5, h6]
  simp only [List.cons_append, List.append_assoc]
  rw [← List.replicate_add, ← List.replicate_add, ← List.replicate_add,
    ← List.replicate_add, ← List.replicate_add, ← List.replicate_add]

/-- C2 counterexample: with one grid cell holding the dangling id "ghost"
(a state the import boundary admits, since cell contents are not
validated) and a registry of one activity a, the per-activity minutes sum
to 0 and free minutes are 10075, so the total is 10075, not 10080 — the
dangling cell is counted in neither bucket. -/
theorem allocationSummary_dangling_counterexample :
    ((allocationSummary [actA] ghostGrid).minutesById.map Prod.snd).sum
        + (allocationSummary [actA] ghostGrid).freeMinutes = 10075
    ∧ ((allocationSummary [actA] ghostGrid).minutesById.map Prod.snd).sum
        + (allocationSummary [actA] ghostGrid).freeMinutes ≠ 10080 := by
  have hnf : nonFreeIds (gridCells ghostGrid) = ["ghost"] := by
    rw [gridCells_ghost]
    rw [nonFreeIds_cons_some "ghost" (by decide) _, nonFreeIds_replicate_none]
  have hfree : (gridCells ghostGrid).countP isFreeCell = 2015 := by
    rw [gridCells_ghost, List.countP_cons, countP_isFreeCell_replicate_none]
    simp [isFreeCell]
  have hfm : (allocationSummary [actA] ghostGrid).freeMinutes = 10075 := by
    show (tally (gridCells ghostGrid)).2 * 5 = 10075
    rw [tally_eq]
    dsimp only
    rw [hfree]
  have hms : ((allocationSummary [actA] ghostGrid).minutesById.map Prod.snd).sum
      = (getCount (tally (gridCells ghostGrid)).1 "a").getD 0 * 5 := by
    show ((([actA].foldl
      (fun m a => setAssoc m a.id
        ((getCount (tally (gridCells ghostGrid)).1 a.id).getD 0 * 5)) [])).map
          Prod.snd).sum = _
    simp [setAssoc, actA]
  have hms0 : ((allocationSummary [actA] ghostGrid).minutesById.map Prod.snd).sum = 0 := by
    rw [hms, tally_eq]
    dsimp only
    rw [getCount_foldl_bumpCount, hnf]
    decide
  constructor
  · rw [hms0, hfm]
  · rw [hms0, hfm]
    decide

/-! The JSON import boundary. -/

/-- A parsed JSON value. -/
inductive JValue where
  | null
  | bool (b : Bool)
  | num (n : Int)
  | str (s : String)
  | arr (elems : List JValue)
  | obj (fields : List (String × JValue))

/-- JS property access on a parsed value: a field of an object, undefined
(none) otherwise. -/
def getField : JValue → String → Option JValue
  | JValue.obj fs, k => (fs.find? (fun e => e.1 == k)).map Prod.snd
  | _, _ => none

/-- `v && typeof v === "object"`: truthy values whose typeof is object,
i.e. arrays and objects (null is falsy, primitives are not objects). -/
def isObjLike : JValue → Bool
  | JValue.arr _ => true
  | JValue.obj _ => true
  | _ => false

/-- `typeof x === "string"` on an optional field. -/
def fieldIsString (v : Option JValue) : Bool :=
  match v with
  | some (JValue.str _) => true
  | _ => false

/-- The per-plan validation of applyImport (App.tsx 585-595): a plan must
be object-like with string id and name, an activities array — whose
entries are not inspected — and a grid of exactly 7 columns of exactly
288 entries each. -/
def planOk (p : JValue) : Bool :=
  isObjLike p
    && fieldIsString (getField p "id")
    && fieldIsString (getField p "name")
    && (match getField p "activities" with
        | some (JValue.arr _) => true
        | _ => false)
    && (match getField p "grid" with
        | some (JValue.arr cols) =>
            cols.length == 7
              && cols.all fun col =>
                match col with
                | JValue.arr cells => cells.length == 288
                | _ => false
        | _ => false)

/-- The status line shown after an import attempt (App.tsx 263). -/
inductive JsonStatus where
  | ok (message : String)
  | error (message : String)

/-- The state applyImport reads and writes: the stored plans, the active
plan id, and the status line. -/
structure ImportEnv where
  plans : List JValue
  activePlanId : Option String
  jsonStatus : Option JsonStatus

/-- Store a status line (the setJsonStatus calls of applyImport). -/
def setStatus (st : ImportEnv) (status : JsonStatus) : ImportEnv :=
  { st with jsonStatus := some status }

/-- The active plan id adopted on success (App.tsx 603): the document's
activePlanId when it is a string, else the first plan's id. -/
def resolveActiveId (doc : JValue) (ps : List JValue) : Option String :=
  match getField doc "activePlanId" with
  | some (JValue.str s) => some s
  | _ =>
      match getField (ps.headD JValue.null) "id" with
      | some (JValue.str s) => some s
      | _ => none

/-- Embeds applyImport (App.tsx 567-605) from the point where the JSON
buffer has parsed (a parse failure likewise only sets an error status):
validate the document shape and either reject it, leaving plans and
activePlanId untouched and reporting a reason, or adopt its plans
wholesale. -/
def applyImport (doc : JValue) (st : ImportEnv) : ImportEnv :=
  if isObjLike doc = false then
    setStatus st (JsonStatus.error "JSON must be an object.")
  else
    match getField doc "plans" with
    | some (JValue.arr ps) =>
        if ps.length = 0 then
          setStatus st (JsonStatus.error "JSON must include a non-empty plans array.")
        else if ps.all planOk = false then
          setStatus st
            (JsonStatus.error "One or more plans are invalid. Expected 7x288 grid per plan.")
        else
          { plans := ps
            activePlanId := resolveActiveId doc ps
            jsonStatus := some (JsonStatus.ok "Imported successfully.") }
    | _ => setStatus st (JsonStatus.error "JSON must include a non-empty plans array.")

/-- The acceptance condition of applyImport. -/
def validDoc (doc : JValue) : Bool :=
  isObjLike doc
    && (match getField doc "plans" with
        | some (JValue.arr ps) => ps.length != 0 && ps.all planOk
        | _ => false)

/-- A valid 288-entry grid column of nulls. -/
def validCol : JValue := JValue.arr (List.replicate 288 JValue.null)

/-- A valid 7x288 grid of nulls. -/
def validGrid : JValue := JValue.arr (List.replicate 7 validCol)

/-- A grid with only 6 columns. -/
def grid6 : JValue := JValue.arr (List.replicate 6 validCol)

/-- A grid whose last column has 287 entries. -/
def gridShortCol : JValue :=
  JValue.arr (List.replicate 6 validCol ++ [JValue.arr (List.replicate 287 JValue.null)])

/-- A plan document value with the given activities array and grid. -/
def mkPlanJ (acts : List JValue) (grid : JValue) : JValue :=
  JValue.obj [("id", JValue.str "p1"), ("name", JValue.str "Plan 1"),
    ("activities", JValue.arr acts), ("grid", grid)]

/-- A document with the given plans array. -/
def mkDoc (ps : List JValue) : JValue :=
  JValue.obj [("version", JValue.num 3), ("activePlanId", JValue.str "p1"),
    ("plans", JValue.arr ps)]

/-- A document with no plans field at all. -/
def docNoPlans : JValue := JValue.obj [("version", JValue.num 3)]

/-- Import state holding one valid plan, used to instantiate the import
theorems. -/
def importEnvEx : ImportEnv :=
  { plans := [mkPlanJ [] validGrid], activePlanId := some "p0", jsonStatus := none }

set_option maxRecDepth 4000 in
/-- C8: a document failing validation is rejected in its entirety — the
stored plans and active plan id (hence every grid) are unchanged and an
error reason is reported; in particular a 6-column grid, a 287-entry
column, an empty plans array and a missing plans array all fail
validation. -/
theorem applyImport_rejects_invalid (doc : JValue) (st : ImportEnv)
    (h : validDoc doc = false) :
    ((applyImport doc st).plans = st.plans
      ∧ (applyImport doc st).activePlanId = st.activePlanId
      ∧ ∃ msg, (applyImport doc st).jsonStatus = some (JsonStatus.error msg))
    ∧ validDoc (mkDoc [mkPlanJ [] grid6]) = false
    ∧ validDoc (mkDoc [mkPlanJ [] gridShortCol]) = false
    ∧ validDoc (mkDoc []) = false
    ∧ validDoc docNoPlans = false := by
  refine ⟨?_, rfl, rfl, rfl, rfl⟩
  unfold applyImport
  unfold validDoc at h
  by_cases h1 : isObjLike doc = false
  · rw [if_pos h1]
    exact ⟨rfl, rfl, _, rfl⟩
  · rw [if_neg h1]
    have h1t : isObjLike doc = true := by
      revert h1
      cases isObjLike doc <;> simp
    rw [h1t, Bool.true_and] at h
    cases hp : getField doc "plans" with
    | none => exact ⟨rfl, rfl, _, rfl⟩
    | some v =>
        cases v with
        | null => exact ⟨rfl, rfl, _, rfl⟩
        | bool b => exact ⟨rfl, rfl, _, rfl⟩
        | num n => exact ⟨rfl, rfl, _, rfl⟩
        | str s => exact ⟨rfl, rfl, _, rfl⟩
        | obj fs => exact ⟨rfl, rfl, _, rfl⟩
        | arr ps =>
            rw [hp] at h
            dsimp only at h ⊢
            by_cases hlen : ps.length = 0
            · rw [if_pos hlen]
              exact ⟨rfl, rfl, _, rfl⟩
            · rw [if_neg hlen]
              have hall : ps.all planOk = false := by
                cases hall0 : ps.all planOk
                · rfl
                · rw [hall0, Bool.and_true] at h
                  simp at h
                  exact absurd (by rw [h]; rfl : ps.length = 0) hlen
              rw [if_pos hall]
              exact ⟨rfl, rfl, _, rfl⟩

set_option maxRecDepth 4000 in
/-- C8 witness: the rejection theorem applied to a stored state and a
document whose only plan has a 6-column grid. -/
theorem applyImport_rejects_invalid_witness :
    validDoc (mkDoc [mkPlanJ [] grid6]) = false
    ∧ ((applyImport (mkDoc [mkPlanJ [] grid6]) importEnvEx).plans = importEnvEx.plans
      ∧ (applyImport (mkDoc [mkPlanJ [] grid6]) importEnvEx).activePlanId
          = importEnvEx.activePlanId
      ∧ ∃ msg, (applyImport (mkDoc [mkPlanJ [] grid6]) importEnvEx).jsonStatus
          = some (JsonStatus.error msg)) :=
  ⟨rfl, (applyImport_rejects_invalid (mkDoc [mkPlanJ [] grid6]) importEnvEx rfl).1⟩

set_option maxRecDepth 4000 in
/-- C9 (amended): the import validation never inspects the entries of a
plan's activities array — any document whose plans are otherwise valid is
accepted wholesale whatever its activity entries contain, so entries
lacking a string id or name are admitted. -/
theorem applyImport_activities_not_validated (entries : List JValue) (st : ImportEnv) :
    (applyImport (mkDoc [mkPlanJ entries validGrid]) st).plans
        = [mkPlanJ entries validGrid]
    ∧ (applyImport (mkDoc [mkPlanJ entries validGrid]) st).jsonStatus
        = some (JsonStatus.ok "Imported successfully.")
    ∧ (applyImport (mkDoc [mkPlanJ entries validGrid]) st).activePlanId = some "p1" :=
  ⟨rfl, rfl, rfl⟩

set_option maxRecDepth 4000 in
/-- C9 counterexample: a document whose plan holds the activity entry {} —
an object with neither a string id nor a string name — passes validation
and is adopted, with an ok status, before any id/name check could reject
it. -/
theorem applyImport_activities_unchecked_counterexample :
    (applyImport (mkDoc [mkPlanJ [JValue.obj []] validGrid]) importEnvEx).plans
        = [mkPlanJ [JValue.obj []] validGrid]
    ∧ (applyImport (mkDoc [mkPlanJ [JValue.obj []] validGrid]) importEnvEx).jsonStatus
        = some (JsonStatus.ok "Imported successfully.")
    ∧ fieldIsString (getField (JValue.obj []) "id") = false
    ∧ fieldIsString (getField (JValue.obj []) "name") = false :=
  ⟨rfl, rfl, rfl, rfl⟩
